import Mathlib

/-!
# Verification of the perceptron classifier in `02_perceptron.py`

Shallow embedding of the `Perceptron` class (lines 23-112 of the source):
real-valued quantities are modelled as rationals, numpy arrays as lists.
The class attributes `self.w` (weight vector, index 0 the bias) and
`self.n_misclass` (per-epoch misclassification counts) are the outputs of
`fit`; `net_input` and `predict` are pure functions of the weights.
-/

set_option autoImplicit false

namespace PerceptronModel

/-- Inner product of two one-dimensional arrays, the value computed by
`np.dot(X, self.w[1:])` in `net_input` when `X` is a single sample.
(`np.dot` requires equal lengths; the guarded version `np_dot` below models
that check, this total function is its value on matching lengths.) -/
def dot : List ℚ → List ℚ → ℚ
  | a :: u, b :: v => a * b + dot u v
  | _, _ => 0

/-- `net_input` (line 96) on a single sample:
`self.w[0] + np.dot(X, self.w[1:])`. -/
def net_input (w x : List ℚ) : ℚ :=
  w.headD 0 + dot x (w.drop 1)

/-- `predict` (line 112) on a single sample:
`np.where(self.net_input(X) >= 0, 1, -1)`. -/
def predict (w x : List ℚ) : ℚ :=
  if 0 ≤ net_input w x then 1 else -1

/-- `net_input` (line 96) on a batch: `np.dot` of a 2-D array with the 1-D
vector `self.w[1:]` takes one inner product per row, and adding the scalar
`self.w[0]` broadcasts over the rows. -/
def net_input_batch (w : List ℚ) (X : List (List ℚ)) : List ℚ :=
  X.map (fun x => w.headD 0 + dot x (w.drop 1))

/-- `predict` (line 112) on a batch: `np.where` applies the step function
elementwise to the batch of net inputs. -/
def predict_batch (w : List ℚ) (X : List (List ℚ)) : List ℚ :=
  (net_input_batch w X).map (fun v => if 0 ≤ v then 1 else -1)

/-- One iteration of `fit`'s inner loop (lines 73-76): compute
`update = self.eta * (yi - self.predict(Xi))`, add it to the bias
`self.w[0]`, add `update * Xi` elementwise to the feature weights
`self.w[1:]`, and return together with `int(update != 0.0)`, the amount
added to the epoch's `misclass` counter. -/
def fit_sample (eta : ℚ) (w x : List ℚ) (y : ℚ) : List ℚ × ℕ :=
  let update := eta * (y - predict w x)
  ((w.headD 0 + update) :: List.zipWith (fun wi xi => wi + update * xi) (w.drop 1) x,
   if update = 0 then 0 else 1)

/-- One epoch of `fit` (lines 69-78): visit `zip(X, y)` in order, updating
the weights online and summing the `misclass` increments. -/
def fit_epoch (eta : ℚ) : List ℚ → List (List ℚ × ℚ) → List ℚ × ℕ
  | w, [] => (w, 0)
  | w, (x, y) :: rest =>
    let p := fit_sample eta w x y
    let q := fit_epoch eta p.1 rest
    (q.1, p.2 + q.2)

/-- The epoch loop of `fit` (lines 67-78): run `n` epochs from weights `w`,
returning the final weights and the per-epoch misclassification counts in
epoch order (`self.n_misclass`). -/
def fit_epochs (eta : ℚ) (samples : List (List ℚ × ℚ)) : ℕ → List ℚ → List ℚ × List ℕ
  | 0, w => (w, [])
  | n + 1, w =>
    let p := fit_epoch eta w samples
    let q := fit_epochs eta samples n p.1
    (q.1, p.2 :: q.2)

/-- `fit` (lines 63-80) with the freshly initialized weight vector passed
explicitly: returns the pair `(self.w, self.n_misclass)` left on the
instance after training. -/
def fit (eta : ℚ) (n_epoch : ℕ) (w_init : List ℚ) (X : List (List ℚ)) (y : List ℚ) :
    List ℚ × List ℕ :=
  fit_epochs eta (X.zip y) n_epoch w_init

/-- One step of a linear congruential generator (glibc constants). -/
def lcg (s : ℕ) : ℕ := (1103515245 * s + 12345) % 2 ^ 31

/-- Modelled from the spec: `fit` draws its initial weights via
`np.random.RandomState(seed=1).normal(loc=0.0, scale=0.01, size=1 + X.shape[1])`
(lines 63-64); numpy's generator (Mersenne twister plus Gaussian transform)
is external library code, so it is modelled as a deterministic fixed-seed
pseudo-random stream of `size` small values centred at `loc` and scaled by
`scale`. The claims depend only on the stream being a deterministic
function of the seed and on its length being `size`. -/
def normal_stream (seed : ℕ) (loc scale : ℚ) : ℕ → List ℚ
  | 0 => []
  | k + 1 =>
    let s := lcg seed
    (loc + scale * ((((s % 2001 : ℕ) : ℚ) - 1000) / 1000)) :: normal_stream s loc scale k

/-- The weight initialization of `fit` (lines 63-64): a fixed-seed draw of
`1 + X.shape[1]` normal values with mean `0` and scale `0.01`, where
`X.shape[1]` is the (uniform) row width of the feature matrix. -/
def init_weights (X : List (List ℚ)) : List ℚ :=
  normal_stream 1 0 (1 / 100) (1 + (X.headD []).length)

/-- `fit` (lines 63-80) including its weight initialization. -/
def fit_full (eta : ℚ) (n_epoch : ℕ) (X : List (List ℚ)) (y : List ℚ) :
    List ℚ × List ℕ :=
  fit eta n_epoch (init_weights X) X y

/-- `np.dot` of two one-dimensional arrays as the fallible call it is in
Python: defined when the lengths match, otherwise numpy raises
`ValueError` (modelled as `none`). -/
def np_dot (a b : List ℚ) : Option ℚ :=
  if a.length = b.length then some (dot a b) else none

/-- `net_input` (line 96) with Python error semantics on a single sample:
`np.dot(X, self.w[1:])` raises when the sample width differs from the
trained width `len(self.w) - 1`. -/
def net_input_checked (w x : List ℚ) : Option ℚ :=
  (np_dot x (w.drop 1)).map (fun d => w.headD 0 + d)

/-- `predict` (line 112) with Python error semantics on a single sample:
the error of `net_input` propagates out of the call. -/
def predict_checked (w x : List ℚ) : Option ℚ :=
  (net_input_checked w x).map (fun v => if 0 ≤ v then 1 else -1)

/-- A Python value in the caller-supplied label vector: a number behaves
in arithmetic; anything else (for instance a raw string label such as
`'Iris-setosa'`) makes `yi - self.predict(Xi)` on line 73 raise. -/
inductive PyLabel
  | num (q : ℚ)
  | nonNum
deriving DecidableEq

/-- The classifier state that `fit` mutates: the instance attributes
`self.w` and `self.n_misclass`. -/
structure PState where
  w : List ℚ
  n_misclass : List ℕ
deriving DecidableEq

/-- One epoch of `fit` with Python error semantics: on a non-numeric label
line 73 raises, surfacing `self.w` as mutated by the earlier samples of
the epoch; the local `misclass` counter of the failing epoch is lost. -/
def fit_epoch_exc (eta : ℚ) : List ℚ → ℕ → List (List ℚ × PyLabel) → Except (List ℚ) (List ℚ × ℕ)
  | w, m, [] => .ok (w, m)
  | w, m, (x, yl) :: rest =>
    match yl with
    | .num q =>
      let p := fit_sample eta w x q
      fit_epoch_exc eta p.1 (m + p.2) rest
    | .nonNum => .error w

/-- The epoch loop of `fit` with Python error semantics: a raise inside an
epoch surfaces the weights as mutated so far together with the counts of
the epochs completed before it (`self.n_misclass.append` on line 78 runs
only after an epoch finishes). -/
def fit_epochs_exc (eta : ℚ) (samples : List (List ℚ × PyLabel)) : ℕ → PState → Except PState PState
  | 0, s => .ok s
  | n + 1, s =>
    match fit_epoch_exc eta s.w 0 samples with
    | .error w' => .error ⟨w', s.n_misclass⟩
    | .ok p => fit_epochs_exc eta samples n ⟨p.1, s.n_misclass ++ [p.2]⟩

/-- `fit` (lines 63-80) as a transition on prior classifier state: lines
64-65 overwrite `self.w` and `self.n_misclass` before any training, so the
prior state `s` is discarded immediately; a raise during training
surfaces the state as mutated at that point. -/
def fit_state (eta : ℚ) (n_epoch : ℕ) (X : List (List ℚ)) (y : List PyLabel)
    (_s : PState) : Except PState PState :=
  fit_epochs_exc eta (X.zip y) n_epoch ⟨init_weights X, []⟩

/-- `predict` (lines 98-112) as a state transformer: its body only reads
`self.w` and performs no assignment, so it returns the state unchanged. -/
def predict_state (s : PState) (x : List ℚ) : ℚ × PState :=
  (predict s.w x, s)

/-- `net_input` (lines 82-96) as a state transformer: read-only over
`self.w`. -/
def net_input_state (s : PState) (x : List ℚ) : ℚ × PState :=
  (net_input s.w x, s)

/-- `k` successive calls of `predict` on the same input, threading the
classifier state through the calls. -/
def predict_repeat (s : PState) (x : List ℚ) : ℕ → List ℚ × PState
  | 0 => ([], s)
  | k + 1 =>
    let p := predict_state s x
    let q := predict_repeat p.2 x k
    (p.1 :: q.1, q.2)

/-- The sequence of `update` values computed during one epoch of `fit`,
in visit order. -/
def epoch_updates (eta : ℚ) : List ℚ → List (List ℚ × ℚ) → List ℚ
  | _, [] => []
  | w, (x, y) :: rest =>
    (eta * (y - predict w x)) :: epoch_updates eta (fit_sample eta w x y).1 rest

/-- The weight vector at the start of epoch `k` of a run of `fit` that
begins from weights `w`. -/
def weights_before (eta : ℚ) (samples : List (List ℚ × ℚ)) (w : List ℚ) : ℕ → List ℚ
  | 0 => w
  | k + 1 => weights_before eta samples (fit_epoch eta w samples).1 k

/-- The spec's decision function, as worded in §4: `+1` when the net input
`bias + dot(feature_weights, sample)` is at least `0`, else `-1`. -/
def spec_decision (w x : List ℚ) : ℚ :=
  if 0 ≤ w.headD 0 + dot x (w.drop 1) then 1 else -1

/-- The spec's per-sample weight change, steps 2-3 of the training loop:
`update = eta * (true_label - predicted_label)`; bias weight plus
`update`; each feature weight plus `update * feature`. -/
def spec_step (eta : ℚ) (w x : List ℚ) (yt : ℚ) : List ℚ :=
  let update := eta * (yt - spec_decision w x)
  (w.headD 0 + update) :: List.zipWith (fun wi xi => wi + update * xi) (w.drop 1) x

/-- The spec's epoch: visit the samples in the given order, applying the
step to each and counting the samples whose update was non-zero. -/
def spec_epoch (eta : ℚ) (samples : List (List ℚ × ℚ)) (w : List ℚ) : List ℚ × ℕ :=
  samples.foldl
    (fun acc p =>
      (spec_step eta acc.1 p.1 p.2,
       acc.2 + if eta * (p.2 - spec_decision acc.1 p.1) = 0 then 0 else 1))
    (w, 0)

/-- The spec's training loop: for each of `n_epoch` epochs run the epoch
and record its misclassification count, preserving epoch order. -/
def spec_fit (eta : ℚ) (n_epoch : ℕ) (w : List ℚ) (samples : List (List ℚ × ℚ)) :
    List ℚ × List ℕ :=
  (List.range n_epoch).foldl
    (fun acc _ =>
      let p := spec_epoch eta samples acc.1
      (p.1, acc.2 ++ [p.2]))
    (w, [])

/-! ### Shared lemmas -/

lemma dot_comm (a : List ℚ) : ∀ b : List ℚ, dot a b = dot b a := by
  induction a with
  | nil => intro b; cases b <;> simp [dot]
  | cons x u ih =>
    intro b
    cases b with
    | nil => simp [dot]
    | cons z v => simp only [dot]; rw [ih v]; ring

lemma fit_sample_length (eta : ℚ) (w x : List ℚ) (y : ℚ) (h : w.length = x.length + 1) :
    (fit_sample eta w x y).1.length = w.length := by
  cases w with
  | nil => simp at h
  | cons a t =>
    simp only [fit_sample, List.length_cons, List.drop_one, List.tail_cons]
    simp only [List.length_zipWith]
    simp only [List.length_cons] at h
    omega

lemma fit_epoch_length (eta : ℚ) :
    ∀ (samples : List (List ℚ × ℚ)) (w : List ℚ),
    (∀ p ∈ samples, w.length = p.1.length + 1) →
    (fit_epoch eta w samples).1.length = w.length := by
  intro samples
  induction samples with
  | nil => intro w _; rfl
  | cons p rest ih =>
    intro w h
    obtain ⟨x, y⟩ := p
    have h1 : w.length = x.length + 1 := h (x, y) (by simp)
    have h2 := fit_sample_length eta w x y h1
    have hrest : ∀ q ∈ rest, (fit_sample eta w x y).1.length = q.1.length + 1 := by
      intro q hq
      rw [h2]
      exact h q (List.mem_cons_of_mem _ hq)
    simp only [fit_epoch]
    rw [ih _ hrest, h2]

lemma fit_epochs_weight_length (eta : ℚ) (samples : List (List ℚ × ℚ)) :
    ∀ (n : ℕ) (w : List ℚ),
    (∀ p ∈ samples, w.length = p.1.length + 1) →
    (fit_epochs eta samples n w).1.length = w.length := by
  intro n
  induction n with
  | zero => intro w _; rfl
  | succ n ih =>
    intro w h
    have h1 := fit_epoch_length eta samples w h
    have hnext : ∀ p ∈ samples, (fit_epoch eta w samples).1.length = p.1.length + 1 := by
      intro p hp
      rw [h1]
      exact h p hp
    simp only [fit_epochs]
    rw [ih _ hnext, h1]

lemma zipWith_update_zero : ∀ (t x : List ℚ), x.length = t.length →
    List.zipWith (fun wi xi => wi + 0 * xi) t x = t := by
  intro t
  induction t with
  | nil => intro x _; simp
  | cons a u ih =>
    intro x hx
    cases x with
    | nil => simp at hx
    | cons b v =>
      rw [List.zipWith_cons_cons, ih v (by simpa using hx)]
      norm_num

lemma fit_sample_zero (eta : ℚ) (w x : List ℚ) (y : ℚ) (h : w.length = x.length + 1)
    (h0 : (fit_sample eta w x y).2 = 0) : (fit_sample eta w x y).1 = w := by
  have hu : eta * (y - predict w x) = 0 := by
    by_contra hne
    simp [fit_sample, hne] at h0
  cases w with
  | nil => simp at h
  | cons a t =>
    simp only [fit_sample, hu, add_zero, List.drop_one, List.tail_cons, List.headD_cons]
    simp only [List.length_cons] at h
    exact congrArg (a :: ·) (zipWith_update_zero t x (by omega))

lemma fit_epoch_zero (eta : ℚ) :
    ∀ (samples : List (List ℚ × ℚ)) (w : List ℚ),
    (∀ p ∈ samples, w.length = p.1.length + 1) →
    (fit_epoch eta w samples).2 = 0 → (fit_epoch eta w samples).1 = w := by
  intro samples
  induction samples with
  | nil => intro w _ _; rfl
  | cons p rest ih =>
    intro w h h0
    obtain ⟨x, y⟩ := p
    simp only [fit_epoch] at h0 ⊢
    have hs : (fit_sample eta w x y).2 = 0 := by omega
    have hr : (fit_epoch eta (fit_sample eta w x y).1 rest).2 = 0 := by omega
    have hw := fit_sample_zero eta w x y (h (x, y) (by simp)) hs
    rw [hw] at hr ⊢
    exact ih w (fun q hq => h q (List.mem_cons_of_mem _ hq)) hr

lemma fit_epochs_fixed (eta : ℚ) (samples : List (List ℚ × ℚ)) (w : List ℚ)
    (hfix : fit_epoch eta w samples = (w, 0)) :
    ∀ n, fit_epochs eta samples n w = (w, List.replicate n 0) := by
  intro n
  induction n with
  | zero => rfl
  | succ n ih =>
    simp only [fit_epochs, hfix, ih, List.replicate_succ]

lemma fit_epochs_tail_zero (eta : ℚ) (samples : List (List ℚ × ℚ)) :
    ∀ (n : ℕ) (w : List ℚ) (k j : ℕ),
    (∀ p ∈ samples, w.length = p.1.length + 1) →
    ((fit_epochs eta samples n w).2)[k]? = some 0 →
    k < j → j < n →
    ((fit_epochs eta samples n w).2)[j]? = some 0 := by
  intro n
  induction n with
  | zero => intro w k j _ _ _ hj; omega
  | succ n ih =>
    intro w k j h hk hkj hj
    obtain ⟨j', rfl⟩ : ∃ j', j = j' + 1 := ⟨j - 1, by omega⟩
    simp only [fit_epochs] at hk ⊢
    cases k with
    | zero =>
      have hp2 : (fit_epoch eta w samples).2 = 0 := by simpa using hk
      have hp1 : (fit_epoch eta w samples).1 = w := fit_epoch_zero eta samples w h hp2
      have hfix : fit_epoch eta w samples = (w, 0) := Prod.ext_iff.mpr ⟨hp1, hp2⟩
      rw [hp1, fit_epochs_fixed eta samples w hfix n]
      simp only [List.getElem?_cons_succ, List.getElem?_replicate]
      rw [if_pos (by omega)]
    | succ k' =>
      have hk' : ((fit_epochs eta samples n (fit_epoch eta w samples).1).2)[k']? = some 0 := by
        simpa using hk
      have hlen := fit_epoch_length eta samples w h
      have h' : ∀ p ∈ samples, (fit_epoch eta w samples).1.length = p.1.length + 1 := by
        intro p hp
        rw [hlen]
        exact h p hp
      simpa using ih (fit_epoch eta w samples).1 k' j' h' hk' (by omega) (by omega)

lemma fit_sample_count_le (eta : ℚ) (w x : List ℚ) (y : ℚ) :
    (fit_sample eta w x y).2 ≤ 1 := by
  simp only [fit_sample]
  split <;> omega

lemma fit_epoch_count_le (eta : ℚ) :
    ∀ (samples : List (List ℚ × ℚ)) (w : List ℚ),
    (fit_epoch eta w samples).2 ≤ samples.length := by
  intro samples
  induction samples with
  | nil => intro w; simp [fit_epoch]
  | cons p rest ih =>
    intro w
    obtain ⟨x, y⟩ := p
    simp only [fit_epoch, List.length_cons]
    have h1 := fit_sample_count_le eta w x y
    have h2 := ih (fit_sample eta w x y).1
    omega

lemma fit_epochs_counts_length (eta : ℚ) (samples : List (List ℚ × ℚ)) :
    ∀ (n : ℕ) (w : List ℚ), ((fit_epochs eta samples n w).2).length = n := by
  intro n
  induction n with
  | zero => intro w; rfl
  | succ n ih => intro w; simp only [fit_epochs, List.length_cons, ih]

lemma fit_epochs_counts_le (eta : ℚ) (samples : List (List ℚ × ℚ)) :
    ∀ (n : ℕ) (w : List ℚ) (m : ℕ), m ∈ (fit_epochs eta samples n w).2 →
    m ≤ samples.length := by
  intro n
  induction n with
  | zero => intro w m hm; simp [fit_epochs] at hm
  | succ n ih =>
    intro w m hm
    simp only [fit_epochs, List.mem_cons] at hm
    rcases hm with hm | hm
    · rw [hm]
      exact fit_epoch_count_le eta samples w
    · exact ih _ m hm

lemma fit_epochs_counts_get (eta : ℚ) (samples : List (List ℚ × ℚ)) :
    ∀ (n : ℕ) (w : List ℚ) (k : ℕ), k < n →
    ((fit_epochs eta samples n w).2)[k]? =
      some ((fit_epoch eta (weights_before eta samples w k) samples).2) := by
  intro n
  induction n with
  | zero => intro w k hk; omega
  | succ n ih =>
    intro w k hk
    cases k with
    | zero => simp [fit_epochs, weights_before]
    | succ k' =>
      simp only [fit_epochs, List.getElem?_cons_succ, weights_before]
      exact ih (fit_epoch eta w samples).1 k' (by omega)

lemma fit_epoch_countP (eta : ℚ) :
    ∀ (samples : List (List ℚ × ℚ)) (w : List ℚ),
    (fit_epoch eta w samples).2 =
      (epoch_updates eta w samples).countP (fun u => decide (u ≠ 0)) := by
  intro samples
  induction samples with
  | nil => intro w; rfl
  | cons p rest ih =>
    intro w
    obtain ⟨x, y⟩ := p
    simp only [fit_epoch, epoch_updates, List.countP_cons, ← ih (fit_sample eta w x y).1]
    by_cases hu : eta * (y - predict w x) = 0
    · simp [fit_sample, hu]
    · simp [fit_sample, hu]
      omega

/-! ### Equivalence of the source training loop with the spec's wording -/

lemma spec_decision_eq (w x : List ℚ) : spec_decision w x = predict w x := rfl

lemma spec_step_eq (eta : ℚ) (w x : List ℚ) (y : ℚ) :
    spec_step eta w x y = (fit_sample eta w x y).1 := rfl

lemma spec_epoch_foldl (eta : ℚ) :
    ∀ (samples : List (List ℚ × ℚ)) (w : List ℚ) (m : ℕ),
    samples.foldl
      (fun acc p =>
        (spec_step eta acc.1 p.1 p.2,
         acc.2 + if eta * (p.2 - spec_decision acc.1 p.1) = 0 then 0 else 1))
      (w, m)
      = ((fit_epoch eta w samples).1, m + (fit_epoch eta w samples).2) := by
  intro samples
  induction samples with
  | nil => intro w m; simp [fit_epoch]
  | cons p rest ih =>
    intro w m
    obtain ⟨x, y⟩ := p
    simp only [List.foldl_cons]
    rw [ih]
    simp only [fit_epoch, spec_step_eq, spec_decision_eq]
    refine Prod.ext_iff.mpr ⟨rfl, ?_⟩
    have h : (fit_sample eta w x y).2 = if eta * (y - predict w x) = 0 then 0 else 1 := rfl
    rw [h]
    omega

lemma spec_epoch_eq (eta : ℚ) (samples : List (List ℚ × ℚ)) (w : List ℚ) :
    spec_epoch eta samples w = fit_epoch eta w samples := by
  have h := spec_epoch_foldl eta samples w 0
  simp only [Nat.zero_add] at h
  rw [spec_epoch, h]

lemma spec_fit_foldl (eta : ℚ) (samples : List (List ℚ × ℚ)) :
    ∀ (l : List ℕ) (w : List ℚ) (acc : List ℕ),
    l.foldl
      (fun a _ =>
        let p := spec_epoch eta samples a.1
        (p.1, a.2 ++ [p.2]))
      (w, acc)
      = ((fit_epochs eta samples l.length w).1,
         acc ++ (fit_epochs eta samples l.length w).2) := by
  intro l
  induction l with
  | nil => intro w acc; simp [fit_epochs]
  | cons i rest ih =>
    intro w acc
    simp only [List.foldl_cons]
    rw [ih]
    simp only [List.length_cons, fit_epochs, spec_epoch_eq]
    refine Prod.ext_iff.mpr ⟨rfl, ?_⟩
    simp

lemma spec_fit_eq (eta : ℚ) (n : ℕ) (w : List ℚ) (samples : List (List ℚ × ℚ)) :
    spec_fit eta n w samples = fit_epochs eta samples n w := by
  rw [spec_fit, spec_fit_foldl eta samples (List.range n) w []]
  simp [List.length_range]

lemma normal_stream_length (loc scale : ℚ) :
    ∀ (k seed : ℕ), (normal_stream seed loc scale k).length = k := by
  intro k
  induction k with
  | zero => intro seed; rfl
  | succ k ih => intro seed; simp only [normal_stream, List.length_cons, ih]

lemma init_weights_length (X : List (List ℚ)) (F : ℕ) (hne : X ≠ [])
    (hX : ∀ r ∈ X, r.length = F) : (init_weights X).length = 1 + F := by
  rw [init_weights, normal_stream_length]
  cases X with
  | nil => exact absurd rfl hne
  | cons r rest => rw [List.headD_cons, hX r (by simp)]

lemma fit_epoch_exc_ok (eta : ℚ) :
    ∀ (samples : List (List ℚ × PyLabel)) (w : List ℚ) (m : ℕ),
    (∀ p ∈ samples, p.2 ≠ PyLabel.nonNum) →
    ∃ r, fit_epoch_exc eta w m samples = .ok r := by
  intro samples
  induction samples with
  | nil => intro w m _; exact ⟨(w, m), rfl⟩
  | cons p rest ih =>
    intro w m h
    obtain ⟨x, yl⟩ := p
    cases yl with
    | num q =>
      simp only [fit_epoch_exc]
      exact ih _ _ (fun p hp => h p (List.mem_cons_of_mem _ hp))
    | nonNum => exact absurd rfl (h (x, PyLabel.nonNum) (by simp))

lemma fit_epochs_exc_ok (eta : ℚ) (samples : List (List ℚ × PyLabel))
    (h : ∀ p ∈ samples, p.2 ≠ PyLabel.nonNum) :
    ∀ (n : ℕ) (s : PState), ∃ s', fit_epochs_exc eta samples n s = .ok s' := by
  intro n
  induction n with
  | zero => intro s; exact ⟨s, rfl⟩
  | succ n ih =>
    intro s
    obtain ⟨r, hr⟩ := fit_epoch_exc_ok eta samples s.w 0 h
    simp only [fit_epochs_exc, hr]
    exact ih _

/-! ### The claims -/

/-- Claim C2: for every weight vector and sample, `predict` returns `+1`
exactly when the net input is at least `0` and `-1` exactly when it is
negative; in particular a sample whose net input is exactly `0` is
classified as `+1`. -/
theorem predict_threshold_inclusive (w x : List ℚ) :
    (predict w x = 1 ↔ 0 ≤ net_input w x) ∧
    (predict w x = -1 ↔ net_input w x < 0) ∧
    (net_input w x = 0 → predict w x = 1) := by
  unfold predict
  by_cases h : 0 ≤ net_input w x
  · rw [if_pos h]
    exact ⟨⟨fun _ => h, fun _ => rfl⟩,
      ⟨fun h1 => absurd h1 (by norm_num), fun hlt => absurd h (not_le.mpr hlt)⟩,
      fun _ => rfl⟩
  · rw [if_neg h]
    exact ⟨⟨fun h1 => absurd h1 (by norm_num), fun h0 => absurd h0 h⟩,
      ⟨fun _ => not_le.mp h, fun _ => rfl⟩,
      fun h0 => absurd (le_of_eq h0.symm) h⟩

/-- Witness for C2: the all-zero sample against bias `0` has net input
exactly `0` and is classified as `+1`. -/
theorem predict_threshold_inclusive_witness :
    net_input [0] [] = 0 ∧ predict [0] [] = 1 :=
  ⟨by norm_num [net_input, dot],
   (predict_threshold_inclusive [0] []).2.2 (by norm_num [net_input, dot])⟩

/-- Claim C5: every value returned by `predict` — on a single sample or on
any batch of the trained width — is an element of `{-1, +1}`. -/
theorem predict_label_closure (w x : List ℚ) (X : List (List ℚ)) :
    (predict w x = 1 ∨ predict w x = -1) ∧
    ∀ r ∈ predict_batch w X, r = 1 ∨ r = -1 := by
  constructor
  · unfold predict
    split
    · exact Or.inl rfl
    · exact Or.inr rfl
  · intro r hr
    simp only [predict_batch, net_input_batch, List.map_map, List.mem_map] at hr
    obtain ⟨a, _, ha⟩ := hr
    rw [← ha]
    simp only [Function.comp_apply]
    split
    · exact Or.inl rfl
    · exact Or.inr rfl

/-- Witness for C5: a concrete batch value is in `{-1, +1}`. -/
theorem predict_label_closure_witness : (1 : ℚ) = 1 ∨ (1 : ℚ) = -1 :=
  (predict_label_closure [0] [] [[]]).2 1
    (by norm_num [predict_batch, net_input_batch, dot])

/-- Claim C6: `net_input` on a single sample is the affine score
`bias + dot(feature_weights, sample)`; on a batch it applies that same
affine transform independently to every row, returning one value per row;
and as a state transformer it returns the classifier state unchanged. -/
theorem net_input_affine (w x : List ℚ) (X : List (List ℚ)) (s : PState) :
    net_input w x = w.headD 0 + dot (w.drop 1) x ∧
    net_input_batch w X = X.map (fun r => w.headD 0 + dot (w.drop 1) r) ∧
    (net_input_batch w X).length = X.length ∧
    (net_input_state s x).2 = s := by
  refine ⟨?_, ?_, by simp [net_input_batch], rfl⟩
  · rw [net_input, dot_comm]
  · simp only [net_input_batch]
    congr 1
    funext r
    rw [dot_comm]

/-- Claim C9: after `fit` has completed, `predict` is side-effect-free:
any number of repeated calls on the same input returns the same value
each time, and neither `predict` nor `net_input` changes the weight
vector or the misclassification sequence. -/
theorem predict_side_effect_free (s : PState) (x : List ℚ) (k : ℕ) :
    predict_repeat s x k = (List.replicate k (predict s.w x), s) ∧
    (predict_state s x).2 = s ∧
    (net_input_state s x).2 = s := by
  refine ⟨?_, rfl, rfl⟩
  induction k with
  | zero => rfl
  | succ k ih => simp [predict_repeat, predict_state, ih, List.replicate_succ]

/-- Claim C1: on a well-formed training set, `fit` runs exactly `n_epoch`
epochs, visits the samples of each epoch in the given input order, and for
each sample computes `update = eta * (true_label - predicted_label)` with
the current weights' decision function, then adds `update` to the bias
weight and `update * feature[i]` to each feature weight — that is, `fit`
coincides with the spec's training loop `spec_fit`. -/
theorem fit_follows_spec_training_loop (eta : ℚ) (n : ℕ) (w0 : List ℚ)
    (X : List (List ℚ)) (y : List ℚ) (F : ℕ)
    (_hne : X ≠ []) (_hX : ∀ r ∈ X, r.length = F) (_hlen : y.length = X.length)
    (_hy : ∀ l ∈ y, l = 1 ∨ l = -1) :
    fit eta n w0 X y = spec_fit eta n w0 (X.zip y) ∧
    (fit eta n w0 X y).2.length = n := by
  constructor
  · rw [fit, spec_fit_eq]
  · exact fit_epochs_counts_length eta (X.zip y) n w0

/-- Witness for C1 on a one-sample, one-epoch training set. -/
theorem fit_follows_spec_training_loop_witness :
    fit 1 1 [0, -1] [[1]] [1] = spec_fit 1 1 [0, -1] ([[1]].zip [1]) ∧
    (fit 1 1 [0, -1] [[1]] [1]).2.length = 1 :=
  fit_follows_spec_training_loop 1 1 [0, -1] [[1]] [1] 1 (by simp) (by simp)
    (by simp) (by simp)

/-- Claim C3: under the fixed seed, two `fit` calls given identical
`(features, labels, eta, n_epoch)` produce identical weight vectors and
identical misclassification sequences; the initial weight vector has
length `1 + n_features` and is the fixed-seed draw with mean `0` and
scale `0.01`. -/
theorem fit_deterministic_fixed_seed (eta eta' : ℚ) (n n' : ℕ)
    (X X' : List (List ℚ)) (y y' : List ℚ) (F : ℕ)
    (h1 : eta = eta') (h2 : n = n') (h3 : X = X') (h4 : y = y')
    (hne : X ≠ []) (hX : ∀ r ∈ X, r.length = F) :
    fit_full eta n X y = fit_full eta' n' X' y' ∧
    (init_weights X).length = 1 + F ∧
    init_weights X = normal_stream 1 0 (1 / 100) (1 + F) := by
  subst h1 h2 h3 h4
  refine ⟨rfl, init_weights_length X F hne hX, ?_⟩
  rw [init_weights]
  congr 1
  cases X with
  | nil => exact absurd rfl hne
  | cons r rest => rw [List.headD_cons, hX r (by simp)]

/-- Witness for C3 at a concrete one-sample training set. -/
theorem fit_deterministic_fixed_seed_witness :
    fit_full 1 1 [[1]] [1] = fit_full 1 1 [[1]] [1] ∧
    (init_weights [[1]]).length = 1 + 1 ∧
    init_weights [[1]] = normal_stream 1 0 (1 / 100) (1 + 1) :=
  fit_deterministic_fixed_seed 1 1 1 1 [[1]] [[1]] [1] [1] 1 rfl rfl rfl rfl
    (by simp) (by simp)

/-- Claim C4: in any run of `fit`, if the misclassification count of epoch
`k` is `0` then the count of every later epoch `j` of the same run is
also `0`: a zero-update epoch leaves the weights unchanged, so every
subsequent epoch over the same data repeats it. -/
theorem misclass_zero_epoch_persists (eta : ℚ) (n : ℕ) (w0 : List ℚ)
    (X : List (List ℚ)) (y : List ℚ) (F k j : ℕ)
    (hw : w0.length = F + 1) (hX : ∀ r ∈ X, r.length = F)
    (hkj : k < j) (hj : j < n)
    (h0 : ((fit eta n w0 X y).2)[k]? = some 0) :
    ((fit eta n w0 X y).2)[j]? = some 0 := by
  have hmem : ∀ p ∈ X.zip y, w0.length = p.1.length + 1 := by
    intro p hp
    rw [hw, hX p.1 (List.of_mem_zip hp).1]
  exact fit_epochs_tail_zero eta (X.zip y) n w0 k j hmem h0 hkj hj

/-- Witness for C4: a run whose first epoch already has count `0` keeps
count `0` in its second epoch. -/
theorem misclass_zero_epoch_persists_witness :
    ((fit 1 2 [0, 1] [[1]] [1]).2)[1]? = some 0 :=
  misclass_zero_epoch_persists 1 2 [0, 1] [[1]] [1] 1 0 1 (by simp) (by simp)
    (by omega) (by omega)
    (by norm_num [fit, fit_epochs, fit_epoch, fit_sample, predict, net_input, dot])

/-- Claim C7: calling `predict` (or `net_input`) after `fit` with a sample
whose feature width differs from the width learned during `fit` raises:
the shape mismatch is rejected before any result is produced. -/
theorem predict_shape_mismatch_raises (eta : ℚ) (n : ℕ) (w0 : List ℚ)
    (X : List (List ℚ)) (y : List ℚ) (F : ℕ) (x : List ℚ)
    (hw : w0.length = F + 1) (hX : ∀ r ∈ X, r.length = F) (hx : x.length ≠ F) :
    net_input_checked (fit eta n w0 X y).1 x = none ∧
    predict_checked (fit eta n w0 X y).1 x = none := by
  have hmem : ∀ p ∈ X.zip y, w0.length = p.1.length + 1 := by
    intro p hp
    rw [hw, hX p.1 (List.of_mem_zip hp).1]
  have hlen : (fit eta n w0 X y).1.length = F + 1 := by
    rw [fit, fit_epochs_weight_length eta (X.zip y) n w0 hmem, hw]
  have hdrop : ((fit eta n w0 X y).1.drop 1).length = F := by
    simp [List.length_drop, hlen]
  have hnone : np_dot x ((fit eta n w0 X y).1.drop 1) = none := by
    rw [np_dot, if_neg]
    rw [hdrop]
    exact hx
  exact ⟨by rw [net_input_checked, hnone]; rfl,
    by rw [predict_checked, net_input_checked, hnone]; rfl⟩

/-- Witness for C7: a width-0 sample against a classifier trained on
width-1 samples is rejected by both `net_input` and `predict`. -/
theorem predict_shape_mismatch_raises_witness :
    net_input_checked (fit 1 1 [0, 1] [[1]] [1]).1 [] = none ∧
    predict_checked (fit 1 1 [0, 1] [[1]] [1]).1 [] = none :=
  predict_shape_mismatch_raises 1 1 [0, 1] [[1]] [1] 1 [] (by simp) (by simp)
    (by simp)

/-- Claim C8 fails on the code: `fit` overwrites `self.w` and
`self.n_misclass` (lines 63-65) before any training, so a call that
raises mid-training — here on a non-numeric label — leaves observable
state different from the state left by the previous `fit`. -/
theorem fit_not_atomic_counterexample :
    fit_state 1 1 [[1]] [PyLabel.nonNum] ⟨[5, 6], [3]⟩ =
      .error ⟨init_weights [[1]], []⟩ ∧
    (⟨init_weights [[1]], []⟩ : PState) ≠ (⟨[5, 6], [3]⟩ : PState) := by
  constructor
  · rfl
  · intro h
    have h2 : ([] : List ℕ) = [3] := congrArg PState.n_misclass h
    simp at h2

/-- Amended C8: `fit` is not atomic with respect to prior classifier
state — it reinitializes the state up front and a failure surfaces the
partially-updated state; what does hold is that on a label vector free of
non-numeric values `fit` always completes fully. -/
theorem fit_total_on_numeric_labels (eta : ℚ) (n : ℕ) (X : List (List ℚ))
    (y : List PyLabel) (s : PState) (h : ∀ l ∈ y, l ≠ PyLabel.nonNum) :
    ∃ s', fit_state eta n X y s = .ok s' :=
  fit_epochs_exc_ok eta (X.zip y)
    (fun p hp => h p.2 (List.of_mem_zip hp).2) n ⟨init_weights X, []⟩

/-- Witness for the amended C8 at a concrete numeric-label training set. -/
theorem fit_total_on_numeric_labels_witness :
    ∃ s', fit_state 1 1 [[1]] [PyLabel.num 1] ⟨[], []⟩ = .ok s' :=
  fit_total_on_numeric_labels 1 1 [[1]] [PyLabel.num 1] ⟨[], []⟩ (by simp)

/-- Claim C10: after every completed `fit`, the misclassification sequence
has length exactly `n_epoch`; entry `k` is the number of samples of epoch
`k` whose update was non-zero; hence every entry is at most the number of
training samples. -/
theorem misclass_sequence_shape (eta : ℚ) (n : ℕ) (w0 : List ℚ)
    (X : List (List ℚ)) (y : List ℚ) (hlen : y.length = X.length) :
    ((fit eta n w0 X y).2).length = n ∧
    (∀ k, k < n → ((fit eta n w0 X y).2)[k]? =
      some ((epoch_updates eta (weights_before eta (X.zip y) w0 k) (X.zip y)).countP
        (fun u => decide (u ≠ 0)))) ∧
    (∀ m ∈ (fit eta n w0 X y).2, m ≤ X.length) := by
  refine ⟨fit_epochs_counts_length eta (X.zip y) n w0, ?_, ?_⟩
  · intro k hk
    rw [fit, fit_epochs_counts_get eta (X.zip y) n w0 k hk, fit_epoch_countP]
  · intro m hm
    have h := fit_epochs_counts_le eta (X.zip y) n w0 m hm
    rwa [List.length_zip, hlen, Nat.min_self] at h

/-- Witness for C10 at a concrete one-sample, one-epoch training set. -/
theorem misclass_sequence_shape_witness :
    ((fit 1 1 [0, -1] [[1]] [1]).2).length = 1 ∧
    (∀ k, k < 1 → ((fit 1 1 [0, -1] [[1]] [1]).2)[k]? =
      some ((epoch_updates 1 (weights_before 1 ([[1]].zip [1]) [0, -1] k)
        ([[1]].zip [1])).countP (fun u => decide (u ≠ 0)))) ∧
    (∀ m ∈ (fit 1 1 [0, -1] [[1]] [1]).2, m ≤ [[1]].length) :=
  misclass_sequence_shape 1 1 [0, -1] [[1]] [1] (by simp)

end PerceptronModel
